import Mathlib

/-!
The program mpags-cipher: the dispatch performed by `main`.

A shallow embedding of `src/mpags-cipher.cpp` and `src/MPAGSCipher/Exceptions.hpp`.

* `std::string` is a list of characters (`Str`); `size_t` values are natural numbers: every
  product `i * pos` the program forms is bounded by the length of the input text
  (`start_le_length`), so no machine arithmetic wraps.
* The collaborators whose code is outside the two source files (`processCommandLine`,
  `transformChar`, `cipherFactory`, the `Cipher` class, the file streams, the scheduling of the
  asynchronous tasks) are the fields of a `World` that `main` is run against.
* A run of `main` is the list of its observable events together with the way it ended.
-/

namespace MPAGSCipher

/-- The type `std::string`. -/
abbrev Str := List Char

/-- The enumeration `CipherMode` (named in `main`, line 25). -/
inductive CipherMode where
  | Encrypt
  | Decrypt
  deriving DecidableEq, Repr

/-- The enumeration `CipherType` (named in `main`, lines 25 and 130; the help text lists the
three ciphers). -/
inductive CipherType where
  | Caesar
  | Playfair
  | Vigenere
  deriving DecidableEq, Repr

/-- The record `ProgramSettings`, its fields in the order of the initialiser on line 25. -/
structure ProgramSettings where
  helpRequested : Bool
  versionRequested : Bool
  inputFile : Str
  outputFile : Str
  cipherKey : Str
  cipherMode : CipherMode
  cipherType : CipherType

/-- The three exception classes of `Exceptions.hpp`. -/
inductive ErrorKind where
  | MissingArgument
  | UnknownArgument
  | InvalidKey
  deriving DecidableEq, Repr

/-- What `processCommandLine` can throw: the two exceptions `main` catches around it
(lines 29 and 33), each built from a message. -/
inductive ArgError where
  | MissingArgument (what : Str)
  | UnknownArgument (what : Str)

/-- The exception class `InvalidKey`, built from a message (`Exceptions.hpp`, lines 36 to 39). -/
structure InvalidKey where
  what : Str

/-- The abstract class `Cipher`: the one member `main` calls is `applyCipher(text, mode)`. -/
structure Cipher where
  applyCipher : Str → CipherMode → Str

/-- Failures that no handler of `main` catches. -/
inductive Fault where
  | out_of_range
  | bad_subscript
  deriving DecidableEq, Repr

/-- How a run of `main` ends: with a return value, or with a failure nobody caught. -/
inductive Outcome where
  | returned (code : Nat)
  | uncaught (e : Fault)
  deriving DecidableEq, Repr

/-- The observable events of a run, in program order. -/
inductive Event where
  | cout (s : Str)
  | cerr (s : Str)
  | fileWrite (path : Str) (s : Str)
  | raised (kind : ErrorKind) (what : Str)
  | ifstreamBad (path : Str)
  | ofstreamBad (path : Str)
  | nullCipher
  | applyCipher (text : Str) (mode : CipherMode)
  | waitFor (i : Nat) (ready : Bool)
  | get (i : Nat)
  deriving DecidableEq

/-- A run of `main`: what it did and how it ended. -/
structure Run where
  trace : List Event
  outcome : Outcome

/-- The run `r` preceded by the events `evs`. -/
def Run.after (evs : List Event) (r : Run) : Run :=
  ⟨evs ++ r.trace, r.outcome⟩

/-- Everything `main` consumes from outside the two source files.
`ifstream path` is the content of the file when the stream is good, `none` otherwise;
`waitTimeouts i` is how many times `futures[i].wait_for` reports a status other than `ready`
before it reports `ready`. -/
structure World where
  processCommandLine : List Str → ProgramSettings → Except ArgError ProgramSettings
  transformChar : Char → Str
  cipherFactory : CipherType → Str → Except InvalidKey (Option Cipher)
  ifstream : Str → Option Str
  cin : Str
  ofstreamGood : Str → Bool
  waitTimeouts : Nat → Nat

/-- The member `std::string::substr(pos, count)`; `count = none` is the default `npos`.
It throws `std::out_of_range` when `pos` exceeds the size. -/
def substr (s : Str) (pos : Nat) (count : Option Nat) : Except Fault Str :=
  if pos > s.length then .error .out_of_range
  else
    match count with
    | some n => .ok ((s.drop pos).take n)
    | none => .ok (s.drop pos)

/-- An element of `futures`: the task launched on line 147 with its captured copy of
`inputPart`, and the value `get()` yields. -/
structure Future where
  inputPart : Str
  value : Str

/-- The split loop of lines 140 to 148; the first argument counts the iterations left,
`i` is the loop variable. -/
def launchLoop (cipher : Cipher) (mode : CipherMode) (inputText : Str) (nThreads pos : Nat) :
    Nat → Nat → List Future → List Event → List Event × Except Fault (List Future)
  | 0, _, futures, tr => (tr, .ok futures)
  | k + 1, i, futures, tr =>
    match (if i < nThreads - 1 then substr inputText (i * pos) (some pos)
           else substr inputText (i * pos) none) with
    | .error e => (tr, .error e)
    | .ok inputPart =>
      launchLoop cipher mode inputText nThreads pos k (i + 1)
        (futures ++ [⟨inputPart, cipher.applyCipher inputPart mode⟩])
        (tr ++ [.applyCipher inputPart mode])

/-- The polling loop of line 151 for `futures[i]`, given the number of checks that are going
to report a status other than `ready`. -/
def waitLoop (i : Nat) : Nat → List Event
  | 0 => [.waitFor i true]
  | n + 1 => .waitFor i false :: .cout "Steady...\n".toList :: waitLoop i n

/-- The reassembly loop of lines 149 to 155: for `futures[i]` the polling loop of line 151,
then `futures[i].get()` on line 154, whose value is appended to `outputText`. -/
def joinLoop (waitTimeouts : Nat → Nat) (futures : List Future) :
    Nat → Nat → Str → List Event → List Event × Except Fault Str
  | 0, _, outputText, tr => (tr, .ok outputText)
  | k + 1, i, outputText, tr =>
    match futures[i]? with
    | none => (tr, .error .bad_subscript)
    | some fut =>
      joinLoop waitTimeouts futures k (i + 1) (outputText ++ fut.value)
        (tr ++ waitLoop i (waitTimeouts i) ++ [.get i])

/-- The Caesar branch of `main` (lines 130 to 156) with the number of threads as a
parameter. -/
def caesarBranch (cipher : Cipher) (mode : CipherMode) (waitTimeouts : Nat → Nat)
    (inputText : Str) (nThreads : Nat) : List Event × Except Fault Str :=
  let pos := inputText.length / nThreads
  match launchLoop cipher mode inputText nThreads pos nThreads 0 [] [] with
  | (tr, .error e) => (tr, .error e)
  | (tr, .ok futures) => joinLoop waitTimeouts futures nThreads 0 [] tr

/-- The constant of line 132. -/
def nThreads : Nat := 10

/-- The predicate `isspace` of the C locale: what `operator>>` skips before a character. -/
def isspace (c : Char) : Bool :=
  c.toNat = 32 || (9 ≤ c.toNat && c.toNat ≤ 13)

/-- The read loops of lines 94 to 97 and 103 to 106 over the content of a stream. -/
def readLoop (transformChar : Char → Str) (stream : Str) : Str :=
  (stream.filter fun c => !isspace c).foldl
    (fun inputText inputChar => inputText ++ transformChar inputChar) []

/-- The help text of lines 43 to 65. -/
def helpText : Str :=
  ("Usage: mpags-cipher [-i/--infile <file>] [-o/--outfile <file>] [-c/--cipher <cipher>] [-k/--key <key>] [--encrypt/--decrypt]\n\n"
    ++ "Encrypts/Decrypts input alphanumeric text using classical ciphers\n\n"
    ++ "Available options:\n\n"
    ++ "  -h|--help\n"
    ++ "                      Print this help message and exit\n\n"
    ++ "  -v|--version\n"
    ++ "                      Print version information\n\n"
    ++ "  -i|--infile FILE\n"
    ++ "                      Read text to be processed from FILE\n"
    ++ "                      Stdin will be used if not supplied\n\n"
    ++ "  -o|--outfile FILE\n"
    ++ "                      Write processed text to FILE\n"
    ++ "                      Stdout will be used if not supplied\n\n"
    ++ "  -c|--cipher CIPHER\n"
    ++ "                      Specify the cipher to be used to perform the encryption/decryption\n"
    ++ "                      CIPHER can be caesar, playfair or vigenere - caesar is the default\n\n"
    ++ "  -k|--key KEY\n"
    ++ "                      Specify the cipher KEY\n"
    ++ "                      A null key, i.e. no encryption, is used if not supplied\n\n"
    ++ "  --encrypt\n"
    ++ "                      Will use the cipher to encrypt the input text (default behaviour)\n\n"
    ++ "  --decrypt\n"
    ++ "                      Will use the cipher to decrypt the input text\n\n").toList

/-- Lines 160 to 181: the processed text goes to the output file or to standard output. -/
def writeOutput (w : World) (settings : ProgramSettings) (outputText : Str) : Run :=
  if settings.outputFile ≠ [] then
    if w.ofstreamGood settings.outputFile = false then
      ⟨[.ofstreamBad settings.outputFile,
        .cerr ("[error] failed to create ostream on file '".toList ++ settings.outputFile
          ++ "'\n".toList)], .returned 1⟩
    else ⟨[.fileWrite settings.outputFile (outputText ++ "\n".toList)], .returned 0⟩
  else ⟨[.cout (outputText ++ "\n".toList)], .returned 0⟩

/-- Lines 124 to 181: the cipher is applied, through the threads when it is the Caesar
cipher, and the result is written. -/
def runCipher (w : World) (settings : ProgramSettings) (cipher : Cipher) (inputText : Str) :
    Run :=
  if settings.cipherType = .Caesar then
    match caesarBranch cipher settings.cipherMode w.waitTimeouts inputText nThreads with
    | (tr, .error e) => ⟨tr, .uncaught e⟩
    | (tr, .ok outputText) => (writeOutput w settings outputText).after tr
  else
    (writeOutput w settings (cipher.applyCipher inputText settings.cipherMode)).after
      [.applyCipher inputText settings.cipherMode]

/-- Lines 109 to 122, then the rest of `main`: the cipher is requested from the factory. -/
def constructCipher (w : World) (settings : ProgramSettings) (inputText : Str) : Run :=
  match w.cipherFactory settings.cipherType settings.cipherKey with
  | .error e =>
    ⟨[.raised .InvalidKey e.what,
      .cerr ("[error] Missing argument: ".toList ++ e.what ++ "\n".toList)], .returned 1⟩
  | .ok none =>
    ⟨[.nullCipher, .cerr "[error] problem constructing requested cipher\n".toList], .returned 1⟩
  | .ok (some cipher) => runCipher w settings cipher inputText

/-- The function `main` of `mpags-cipher.cpp`. -/
def main (w : World) (cmdLineArgs : List Str) : Run :=
  match w.processCommandLine cmdLineArgs ⟨false, false, [], [], [], .Encrypt, .Caesar⟩ with
  | .error (.MissingArgument what) =>
    ⟨[.raised .MissingArgument what,
      .cerr ("[error] Missing argument: ".toList ++ what ++ "\n".toList)], .returned 1⟩
  | .error (.UnknownArgument what) =>
    ⟨[.raised .UnknownArgument what,
      .cerr ("[error] Unknown argument: ".toList ++ what ++ "\n".toList)], .returned 1⟩
  | .ok settings =>
    if settings.helpRequested then ⟨[.cout helpText], .returned 0⟩
    else if settings.versionRequested then ⟨[.cout "0.5.0\n".toList], .returned 0⟩
    else if settings.inputFile ≠ [] then
      match w.ifstream settings.inputFile with
      | none =>
        ⟨[.ifstreamBad settings.inputFile,
          .cerr ("[error] failed to create istream on file '".toList ++ settings.inputFile
            ++ "'\n".toList)], .returned 1⟩
      | some content => constructCipher w settings (readLoop w.transformChar content)
    else constructCipher w settings (readLoop w.transformChar w.cin)

/-- What a trace wrote to standard output. -/
def stdoutOf (tr : List Event) : Str :=
  (tr.map fun e => match e with
    | .cout s => s
    | _ => []).flatten

/-- What a trace wrote to standard error. -/
def stderrOf (tr : List Event) : Str :=
  (tr.map fun e => match e with
    | .cerr s => s
    | _ => []).flatten


/-- Segment `i` of the text in closed form: what line 142 or line 143 assigns to
`inputPart` in iteration `i`. -/
def segment (T : Str) (N i : Nat) : Str :=
  if i < N - 1 then (T.drop (i * (T.length / N))).take (T.length / N)
  else T.drop (i * (T.length / N))


/-! The Caesar transform, from the specification -/

/-- Modelled from the spec: the alphabet of section 3 (the class `CaesarCipher` is not among
the source files), the 26 uppercase letters indexed 0 to 25. -/
def alphabet : Str := "ABCDEFGHIJKLMNOPQRSTUVWXYZ".toList

/-- Modelled from the spec: the Caesar transform of one character (section 4.3; the class
`CaesarCipher` is not among the source files): a letter of the alphabet is shifted forward by
`shift` positions modulo 26 to encrypt and backward to decrypt, any other character passes
through unchanged. -/
def caesarChar (shift : Nat) (mode : CipherMode) (c : Char) : Char :=
  if c ∈ alphabet then
    match mode with
    | .Encrypt => alphabet.getD ((alphabet.indexOf c + shift) % 26) c
    | .Decrypt => alphabet.getD ((alphabet.indexOf c + 26 - shift % 26) % 26) c
  else c

/-- Modelled from the spec: the Caesar cipher with a given shift as a `Cipher` (section 4.3;
the class `CaesarCipher` is not among the source files): the text is transformed character by
character. -/
def caesarCipher (shift : Nat) : Cipher :=
  ⟨fun text mode => text.map (caesarChar shift mode)⟩


/-- Equality of results is decidable when equality of failures and of values is. -/
instance instDecidableEqExcept {ε α : Type} [DecidableEq ε] [DecidableEq α] :
    DecidableEq (Except ε α)
  | .ok a, .ok b =>
    if h : a = b then isTrue (congrArg Except.ok h)
    else isFalse (fun h2 => h (Except.ok.inj h2))
  | .error a, .error b =>
    if h : a = b then isTrue (congrArg Except.error h)
    else isFalse (fun h2 => h (Except.error.inj h2))
  | .ok _, .error _ => isFalse (fun h => Except.noConfusion h)
  | .error _, .ok _ => isFalse (fun h => Except.noConfusion h)

/-! Reading a run -/

/-- The events that write the processed text or call the cipher. -/
def Event.isOutput : Event → Bool
  | .cout _ => true
  | .fileWrite _ _ => true
  | .applyCipher _ _ => true
  | _ => false

/-- The events that call the cipher or write to the output file. -/
def Event.isTransform : Event → Bool
  | .fileWrite _ _ => true
  | .applyCipher _ _ => true
  | _ => false

/-- The events of the wait: a readiness check of a future, or taking its result. -/
def Event.isWait : Event → Bool
  | .waitFor _ _ => true
  | .get _ => true
  | _ => false

/-- The readiness checks and the `get()` calls of a trace, in program order. -/
def waitEvents (tr : List Event) : List Event :=
  tr.filter Event.isWait

/-- How many times a trace checks whether `futures[i]` is ready. -/
def readinessChecks (i : Nat) (tr : List Event) : Nat :=
  tr.countP fun e => match e with
    | .waitFor j _ => j == i
    | _ => false

/-- A wait that blocks until completion is signaled: no future is checked for readiness more
than once. -/
def blockingWait (tr : List Event) : Prop :=
  ∀ i, readinessChecks i tr ≤ 1

/-- Modelled from the spec: the character sanitizer of section 4.1 (the function
`transformChar` is not among the source files): a letter gives its uppercase form, a digit
itself, any other character nothing. It is used in the sample worlds only. -/
def sanitize (c : Char) : Str :=
  if c.isAlpha then [c.toUpper] else if c.isDigit then [c] else []

/-- A sample world: the command line parses to `parsed`, the factory answers `made`, the text
comes from standard input, every output file opens, and `futures[i]` reports `timeouts i`
times that it is not ready. -/
def sampleWorld (parsed : Except ArgError ProgramSettings)
    (made : Except InvalidKey (Option Cipher)) (input : Str) (timeouts : Nat → Nat) : World where
  processCommandLine := fun _ _ => parsed
  transformChar := sanitize
  cipherFactory := fun _ _ => made
  ifstream := fun _ => none
  cin := input
  ofstreamGood := fun _ => true
  waitTimeouts := timeouts

/-- The settings of a Caesar encryption with key 3 from standard input to standard output. -/
def caesar3Settings : ProgramSettings :=
  ⟨false, false, [], [], "3".toList, .Encrypt, .Caesar⟩
/-! The split and the reassembly -/

theorem start_le_length (len N i : Nat) (hi : i < N) : i * (len / N) ≤ len :=
  calc i * (len / N) ≤ N * (len / N) := Nat.mul_le_mul_right _ (Nat.le_of_lt hi)
    _ ≤ len := Nat.mul_div_le len N

theorem launchLoop_eq (cipher : Cipher) (mode : CipherMode) (T : Str) (N : Nat) :
    ∀ (k i : Nat) (futures : List Future) (tr : List Event), i + k ≤ N →
      launchLoop cipher mode T N (T.length / N) k i futures tr =
        (tr ++ (List.range' i k).map (fun j => Event.applyCipher (segment T N j) mode),
          .ok (futures ++ (List.range' i k).map
            (fun j => ⟨segment T N j, cipher.applyCipher (segment T N j) mode⟩))) := by
  intro k
  induction k with
  | zero => intro i futures tr _; simp [launchLoop]
  | succ k ih =>
    intro i futures tr h
    have hs : ¬ (i * (T.length / N) > T.length) :=
      Nat.not_lt.mpr (start_le_length T.length N i (by omega))
    by_cases hlt : i < N - 1
    · simp only [launchLoop, substr, hlt, hs, if_true, if_false]
      rw [ih (i + 1) _ _ (by omega)]
      simp [List.range'_succ, segment, hlt]
    · simp only [launchLoop, substr, hlt, hs, if_false]
      rw [ih (i + 1) _ _ (by omega)]
      simp [List.range'_succ, segment, hlt]

theorem joinLoop_eq (waitTimeouts : Nat → Nat) (futures : List Future) :
    ∀ (k i : Nat) (outputText : Str) (tr : List Event), i + k ≤ futures.length →
      joinLoop waitTimeouts futures k i outputText tr =
        (tr ++ ((List.range' i k).map
            (fun j => waitLoop j (waitTimeouts j) ++ [Event.get j])).flatten,
          .ok (outputText ++ (((futures.drop i).take k).map Future.value).flatten)) := by
  intro k
  induction k with
  | zero => intro i outputText tr _; simp [joinLoop]
  | succ k ih =>
    intro i outputText tr h
    have hi : i < futures.length := by omega
    have hd : futures.drop i = futures[i] :: futures.drop (i + 1) :=
      List.drop_eq_getElem_cons hi
    simp only [joinLoop, List.getElem?_eq_getElem hi]
    rw [ih (i + 1) _ _ (by omega), hd]
    simp only [List.take_succ_cons, List.map_cons, List.flatten_cons, List.range'_succ,
      List.append_assoc]

theorem caesarBranch_eq (cipher : Cipher) (mode : CipherMode) (waitTimeouts : Nat → Nat)
    (T : Str) (N : Nat) :
    caesarBranch cipher mode waitTimeouts T N =
      ((List.range N).map (fun j => Event.applyCipher (segment T N j) mode)
          ++ ((List.range N).map
            (fun j => waitLoop j (waitTimeouts j) ++ [Event.get j])).flatten,
        .ok ((List.range N).map (fun j => cipher.applyCipher (segment T N j) mode)).flatten) := by
  unfold caesarBranch
  simp only [launchLoop_eq cipher mode T N N 0 [] [] (by omega), List.nil_append]
  rw [joinLoop_eq waitTimeouts _ N 0 [] _ (by simp)]
  have ht : ∀ (g : Nat → Str), List.take N ((List.range' 0 N).map g) = (List.range' 0 N).map g :=
    fun g => List.take_of_length_le (by simp)
  simp [List.range_eq_range', Function.comp_def, ht]

theorem flatten_segments_take (T : Str) (N : Nat) :
    ∀ k, k ≤ N - 1 →
      ((List.range k).map (segment T N)).flatten = T.take (k * (T.length / N)) := by
  intro k
  induction k with
  | zero => intro _; simp
  | succ k ih =>
    intro h
    have hk : k < N - 1 := by omega
    rw [List.range_succ, List.map_append, List.flatten_append, ih (by omega), Nat.succ_mul,
      List.take_add]
    simp [segment, hk]

theorem flatten_segments (T : Str) (N : Nat) (hN : 1 ≤ N) :
    ((List.range N).map (segment T N)).flatten = T := by
  obtain ⟨m, rfl⟩ : ∃ m, N = m + 1 := ⟨N - 1, by omega⟩
  rw [List.range_succ, List.map_append, List.flatten_append,
    flatten_segments_take T (m + 1) m (by simp)]
  simp [segment]

theorem applyCipher_flatten (f : Str → Str) (hdist : ∀ a b : Str, f (a ++ b) = f a ++ f b) :
    ∀ L : List Str, f L.flatten = (L.map f).flatten := by
  have hnil : f [] = [] := by
    have h := congrArg List.length (hdist [] [])
    simp only [List.append_nil, List.length_append] at h
    exact List.length_eq_zero.mp (by omega)
  intro L
  induction L with
  | nil => simpa using hnil
  | cons a L ih => simp [hdist, ih]


theorem launchLoop_futures (cipher : Cipher) (mode : CipherMode) (T : Str) (N : Nat) :
    launchLoop cipher mode T N (T.length / N) N 0 [] [] =
      ((List.range N).map (fun j => Event.applyCipher (segment T N j) mode),
        .ok ((List.range N).map
          (fun j => ⟨segment T N j, cipher.applyCipher (segment T N j) mode⟩))) := by
  rw [launchLoop_eq cipher mode T N N 0 [] [] (by omega)]
  simp [List.range_eq_range']

theorem length_segment_inner (T : Str) (N i : Nat) (hi : i < N - 1) :
    (segment T N i).length = T.length / N := by
  have h : (i + 1) * (T.length / N) ≤ T.length :=
    start_le_length T.length N (i + 1) (by omega)
  rw [Nat.succ_mul] at h
  simp only [segment, hi, if_true, List.length_take, List.length_drop]
  omega

theorem length_segment_last (T : Str) (N : Nat) :
    (segment T N (N - 1)).length = T.length - (N - 1) * (T.length / N) := by
  simp [segment]

theorem last_length_eq (len N : Nat) (hN : 1 ≤ N) :
    len - (N - 1) * (len / N) = len / N + len % N := by
  obtain ⟨m, rfl⟩ : ∃ m, N = m + 1 := ⟨N - 1, by omega⟩
  have h := Nat.div_add_mod len (m + 1)
  rw [Nat.succ_mul] at h
  simp only [Nat.add_sub_cancel]
  generalize m * (len / (m + 1)) = x at h ⊢
  generalize len / (m + 1) = q at h ⊢
  generalize len % (m + 1) = r at h ⊢
  omega

/-! The claims about the Caesar branch -/

/-- C1: for every text, both modes and every number of threads `N ≥ 1`, when the cipher's
transform distributes over concatenation, the output text that the Caesar branch of `main`
builds (split, `applyCipher` on each segment, results appended for `i = 0 .. N-1`) is
`applyCipher` of the whole text, whatever the timing of the workers. -/
theorem caesarBranch_eq_applyCipher (cipher : Cipher) (mode : CipherMode)
    (waitTimeouts : Nat → Nat) (T : Str) (N : Nat) (hN : 1 ≤ N)
    (hdist : ∀ a b : Str,
      cipher.applyCipher (a ++ b) mode = cipher.applyCipher a mode ++ cipher.applyCipher b mode) :
    (caesarBranch cipher mode waitTimeouts T N).2 = .ok (cipher.applyCipher T mode) := by
  rw [caesarBranch_eq]
  have h := applyCipher_flatten (fun t => cipher.applyCipher t mode) hdist
    ((List.range N).map (segment T N))
  rw [flatten_segments T N hN] at h
  simp only [List.map_map, Function.comp_def] at h
  simp only [h]

theorem caesarBranch_eq_applyCipher_witness :
    1 ≤ 10 ∧
      (caesarBranch (caesarCipher 3) .Encrypt (fun _ => 2) "HELLOWORLD123".toList 10).2 =
        .ok ((caesarCipher 3).applyCipher "HELLOWORLD123".toList .Encrypt) :=
  ⟨by decide, caesarBranch_eq_applyCipher (caesarCipher 3) .Encrypt (fun _ => 2)
    "HELLOWORLD123".toList 10 (by decide) (fun a b => by simp [caesarCipher])⟩

/-- C2: for every input text and every number of threads `N ≥ 1`, the split loop of `main`
completes with `N` segments (segment `i` is `substr(i*pos, pos)` for `i < N-1` and
`substr(i*pos)` for the last, `pos = size/N`) whose concatenation in index order is exactly
the input text. -/
theorem segments_cover (cipher : Cipher) (mode : CipherMode) (T : Str) (N : Nat)
    (hN : 1 ≤ N) :
    ∃ tr futures, launchLoop cipher mode T N (T.length / N) N 0 [] [] = (tr, .ok futures) ∧
      futures.length = N ∧ (futures.map Future.inputPart).flatten = T := by
  refine ⟨_, _, launchLoop_futures cipher mode T N, by simp, ?_⟩
  simp only [List.map_map, Function.comp_def]
  exact flatten_segments T N hN

theorem segments_cover_witness :
    1 ≤ 10 ∧ ∃ tr futures,
      launchLoop (caesarCipher 3) .Encrypt "HELLOWORLD123".toList 10
          ("HELLOWORLD123".toList.length / 10) 10 0 [] [] = (tr, .ok futures) ∧
        futures.length = 10 ∧
        (futures.map Future.inputPart).flatten = "HELLOWORLD123".toList :=
  ⟨by decide, segments_cover (caesarCipher 3) .Encrypt "HELLOWORLD123".toList 10 (by decide)⟩

/-- C3: for every input text of length `len` and every number of threads `N ≥ 1`, the split
loop of `main` yields `N` segments, every one but the last of length `len / N` (rounded down)
and the last of length `len - (N-1) * (len / N)`, which is `len / N + len % N`. -/
theorem segment_lengths (cipher : Cipher) (mode : CipherMode) (T : Str) (N : Nat)
    (hN : 1 ≤ N) :
    ∃ tr futures, launchLoop cipher mode T N (T.length / N) N 0 [] [] = (tr, .ok futures) ∧
      futures.length = N ∧
      (∀ i, i < N - 1 →
        (futures[i]?).map (fun fut => fut.inputPart.length) = some (T.length / N)) ∧
      (futures[N - 1]?).map (fun fut => fut.inputPart.length) =
        some (T.length - (N - 1) * (T.length / N)) ∧
      T.length - (N - 1) * (T.length / N) = T.length / N + T.length % N := by
  refine ⟨_, _, launchLoop_futures cipher mode T N, by simp, ?_, ?_, last_length_eq _ _ hN⟩
  · intro i hi
    have hi2 : i < N := by omega
    simp [List.getElem?_range hi2, length_segment_inner T N i hi]
  · have hi2 : N - 1 < N := by omega
    simp [List.getElem?_range hi2, length_segment_last T N]

theorem segment_lengths_witness :
    1 ≤ 10 ∧ ∃ tr futures,
      launchLoop (caesarCipher 3) .Encrypt "HELLOWORLD123".toList 10
          ("HELLOWORLD123".toList.length / 10) 10 0 [] [] = (tr, .ok futures) ∧
        futures.length = 10 ∧
        (∀ i, i < 10 - 1 →
          (futures[i]?).map (fun fut => fut.inputPart.length) =
            some ("HELLOWORLD123".toList.length / 10)) ∧
        (futures[10 - 1]?).map (fun fut => fut.inputPart.length) =
          some ("HELLOWORLD123".toList.length - (10 - 1) * ("HELLOWORLD123".toList.length / 10)) ∧
        "HELLOWORLD123".toList.length - (10 - 1) * ("HELLOWORLD123".toList.length / 10) =
          "HELLOWORLD123".toList.length / 10 + "HELLOWORLD123".toList.length % 10 :=
  ⟨by decide, segment_lengths (caesarCipher 3) .Encrypt "HELLOWORLD123".toList 10 (by decide)⟩

/-- C10: for every input text (the empty one and those shorter than 10 included) the split
and reassembly loops of the Caesar branch of `main` take no error branch: every `substr`
starts at `i * pos ≤ size` and does not throw, exactly 10 futures are created, every
`futures[i]` with `i` in `0 .. 9` exists, and the reassembly loop ends with a text. -/
theorem caesar_loops_safe (cipher : Cipher) (mode : CipherMode) (waitTimeouts : Nat → Nat)
    (T : Str) :
    (∀ i, i < nThreads → i * (T.length / nThreads) ≤ T.length ∧
      ∀ count, ∃ part, substr T (i * (T.length / nThreads)) count = .ok part) ∧
    ∃ tr futures,
      launchLoop cipher mode T nThreads (T.length / nThreads) nThreads 0 [] [] =
        (tr, .ok futures) ∧
      futures.length = 10 ∧ (∀ i, i < nThreads → (futures[i]?).isSome = true) ∧
      ∃ tr2 outputText,
        joinLoop waitTimeouts futures nThreads 0 [] tr = (tr2, .ok outputText) := by
  refine ⟨fun i hi => ?_, _, _, launchLoop_futures cipher mode T nThreads, by simp [nThreads],
    fun i hi => ?_, _, _, joinLoop_eq waitTimeouts _ nThreads 0 [] _ (by simp)⟩
  · have h := start_le_length T.length nThreads i hi
    refine ⟨h, fun count => ?_⟩
    cases count <;> simp [substr, Nat.not_lt.mpr h]
  · simp [List.getElem?_range hi]

/-! The round trip through the Caesar branch -/

theorem caesarChar_roundtrip_alphabet :
    ∀ c ∈ alphabet, ∀ s ∈ List.range 26,
      caesarChar s .Decrypt (caesarChar s .Encrypt c) = c := by
  decide

theorem caesarChar_roundtrip (shift : Nat) (hs : shift ≤ 25) (c : Char) :
    caesarChar shift .Decrypt (caesarChar shift .Encrypt c) = c := by
  by_cases hc : c ∈ alphabet
  · exact caesarChar_roundtrip_alphabet c hc shift (List.mem_range.mpr (by omega))
  · simp [caesarChar, hc]

theorem caesarBranch_caesarCipher (shift : Nat) (mode : CipherMode) (timeouts : Nat → Nat)
    (T : Str) (N : Nat) (hN : 1 ≤ N) :
    (caesarBranch (caesarCipher shift) mode timeouts T N).2 =
      .ok (T.map (caesarChar shift mode)) := by
  rw [caesarBranch_eq]
  have h := applyCipher_flatten (fun t => t.map (caesarChar shift mode))
    (fun a b => List.map_append _ a b) ((List.range N).map (segment T N))
  rw [flatten_segments T N hN] at h
  simp only [List.map_map, Function.comp_def] at h
  simp only [caesarCipher, h]

/-- C4: with the Caesar transform of the specification, for every shift in `[0, 25]`, every
text `T` (sanitized or not) and every timing of the workers, the Caesar branch of `main`
(10 segments, each transformed, results concatenated in order) in Encrypt mode ends with a
text `E`, and on `E` in Decrypt mode it ends with exactly `T`; with key 3 it sends "HELLO" to
"KHOOR" and "KHOOR" back to "HELLO". -/
theorem caesar_parallel_roundtrip (shift : Nat) (T : Str) (t₁ t₂ : Nat → Nat)
    (hs : shift ≤ 25) :
    (∃ E, (caesarBranch (caesarCipher shift) .Encrypt t₁ T nThreads).2 = .ok E ∧
      (caesarBranch (caesarCipher shift) .Decrypt t₂ E nThreads).2 = .ok T) ∧
    (caesarBranch (caesarCipher 3) .Encrypt t₁ "HELLO".toList nThreads).2
      = .ok "KHOOR".toList ∧
    (caesarBranch (caesarCipher 3) .Decrypt t₂ "KHOOR".toList nThreads).2
      = .ok "HELLO".toList := by
  have hN : 1 ≤ nThreads := by decide
  refine ⟨⟨_, caesarBranch_caesarCipher shift .Encrypt t₁ T nThreads hN, ?_⟩, ?_, ?_⟩
  · rw [caesarBranch_caesarCipher shift .Decrypt t₂ _ nThreads hN, List.map_map]
    have hmap : ∀ l : Str,
        l.map (caesarChar shift .Decrypt ∘ caesarChar shift .Encrypt) = l := by
      intro l
      induction l with
      | nil => rfl
      | cons c l ih => simp [caesarChar_roundtrip shift hs c, ih]
    rw [hmap T]
  · rw [caesarBranch_caesarCipher 3 .Encrypt t₁ _ nThreads hN]
    decide
  · rw [caesarBranch_caesarCipher 3 .Decrypt t₂ _ nThreads hN]
    decide

theorem caesar_parallel_roundtrip_witness :
    3 ≤ 25 ∧
    ((∃ E, (caesarBranch (caesarCipher 3) .Encrypt (fun _ => 1) "HELLOWORLD123".toList
        nThreads).2 = .ok E ∧
      (caesarBranch (caesarCipher 3) .Decrypt (fun i => i) E nThreads).2
        = .ok "HELLOWORLD123".toList) ∧
    (caesarBranch (caesarCipher 3) .Encrypt (fun _ => 1) "HELLO".toList nThreads).2
      = .ok "KHOOR".toList ∧
    (caesarBranch (caesarCipher 3) .Decrypt (fun i => i) "KHOOR".toList nThreads).2
      = .ok "HELLO".toList) :=
  ⟨by decide,
    caesar_parallel_roundtrip 3 "HELLOWORLD123".toList (fun _ => 1) (fun i => i) (by decide)⟩

/-! The runs of `main` -/

theorem main_parse_error_missing (w : World) (cmdLineArgs : List Str) (what : Str)
    (hp : w.processCommandLine cmdLineArgs ⟨false, false, [], [], [], .Encrypt, .Caesar⟩
      = .error (.MissingArgument what)) :
    main w cmdLineArgs = ⟨[.raised .MissingArgument what,
      .cerr ("[error] Missing argument: ".toList ++ what ++ "\n".toList)], .returned 1⟩ := by
  unfold main
  rw [hp]

theorem main_parse_error_unknown (w : World) (cmdLineArgs : List Str) (what : Str)
    (hp : w.processCommandLine cmdLineArgs ⟨false, false, [], [], [], .Encrypt, .Caesar⟩
      = .error (.UnknownArgument what)) :
    main w cmdLineArgs = ⟨[.raised .UnknownArgument what,
      .cerr ("[error] Unknown argument: ".toList ++ what ++ "\n".toList)], .returned 1⟩ := by
  unfold main
  rw [hp]

theorem main_help (w : World) (cmdLineArgs : List Str) (settings : ProgramSettings)
    (hp : w.processCommandLine cmdLineArgs ⟨false, false, [], [], [], .Encrypt, .Caesar⟩
      = .ok settings)
    (hh : settings.helpRequested = true) :
    main w cmdLineArgs = ⟨[.cout helpText], .returned 0⟩ := by
  unfold main
  rw [hp]
  simp only [hh, if_true]

theorem main_version (w : World) (cmdLineArgs : List Str) (settings : ProgramSettings)
    (hp : w.processCommandLine cmdLineArgs ⟨false, false, [], [], [], .Encrypt, .Caesar⟩
      = .ok settings)
    (hh : settings.helpRequested = false) (hv : settings.versionRequested = true) :
    main w cmdLineArgs = ⟨[.cout "0.5.0\n".toList], .returned 0⟩ := by
  unfold main
  rw [hp]
  simp [hh, hv]

theorem main_bad_ifstream (w : World) (cmdLineArgs : List Str) (settings : ProgramSettings)
    (hp : w.processCommandLine cmdLineArgs ⟨false, false, [], [], [], .Encrypt, .Caesar⟩
      = .ok settings)
    (hh : settings.helpRequested = false) (hv : settings.versionRequested = false)
    (hi : settings.inputFile ≠ []) (hs : w.ifstream settings.inputFile = none) :
    main w cmdLineArgs = ⟨[.ifstreamBad settings.inputFile,
      .cerr ("[error] failed to create istream on file '".toList ++ settings.inputFile
        ++ "'\n".toList)], .returned 1⟩ := by
  unfold main
  rw [hp]
  simp [hh, hv, hi, hs]

theorem main_reaches_factory (w : World) (cmdLineArgs : List Str)
    (settings : ProgramSettings)
    (hp : w.processCommandLine cmdLineArgs ⟨false, false, [], [], [], .Encrypt, .Caesar⟩
      = .ok settings)
    (hh : settings.helpRequested = false) (hv : settings.versionRequested = false)
    (hin : settings.inputFile = [] ∨ ∃ content, w.ifstream settings.inputFile = some content) :
    ∃ inputText, main w cmdLineArgs = constructCipher w settings inputText := by
  by_cases hi : settings.inputFile = []
  · refine ⟨readLoop w.transformChar w.cin, ?_⟩
    unfold main
    rw [hp]
    simp [hh, hv, hi]
  · rcases hin with h | ⟨content, hc⟩
    · exact absurd h hi
    · refine ⟨readLoop w.transformChar content, ?_⟩
      unfold main
      rw [hp]
      simp [hh, hv, hi, hc]

theorem constructCipher_error (w : World) (settings : ProgramSettings) (inputText : Str)
    (e : InvalidKey)
    (hf : w.cipherFactory settings.cipherType settings.cipherKey = .error e) :
    constructCipher w settings inputText = ⟨[.raised .InvalidKey e.what,
      .cerr ("[error] Missing argument: ".toList ++ e.what ++ "\n".toList)], .returned 1⟩ := by
  unfold constructCipher
  rw [hf]

theorem constructCipher_null (w : World) (settings : ProgramSettings) (inputText : Str)
    (hf : w.cipherFactory settings.cipherType settings.cipherKey = .ok none) :
    constructCipher w settings inputText = ⟨[.nullCipher,
      .cerr "[error] problem constructing requested cipher\n".toList], .returned 1⟩ := by
  unfold constructCipher
  rw [hf]

theorem constructCipher_some (w : World) (settings : ProgramSettings) (inputText : Str)
    (cipher : Cipher)
    (hf : w.cipherFactory settings.cipherType settings.cipherKey = .ok (some cipher)) :
    constructCipher w settings inputText = runCipher w settings cipher inputText := by
  unfold constructCipher
  rw [hf]

theorem runCipher_eq (w : World) (settings : ProgramSettings) (cipher : Cipher) (T : Str) :
    ∃ tr outputText,
      runCipher w settings cipher T = (writeOutput w settings outputText).after tr := by
  unfold runCipher
  split
  · rw [caesarBranch_eq cipher settings.cipherMode w.waitTimeouts T nThreads]
    exact ⟨_, _, rfl⟩
  · exact ⟨_, _, rfl⟩

theorem writeOutput_bad_ofstream (w : World) (settings : ProgramSettings) (outputText : Str)
    (ho : settings.outputFile ≠ []) (hg : w.ofstreamGood settings.outputFile = false) :
    (writeOutput w settings outputText).outcome = .returned 1 := by
  simp [writeOutput, ho, hg]

theorem writeOutput_written (w : World) (settings : ProgramSettings) (outputText : Str)
    (ho : settings.outputFile = [] ∨ w.ofstreamGood settings.outputFile = true) :
    (writeOutput w settings outputText).outcome = .returned 0 := by
  by_cases h : settings.outputFile = []
  · simp [writeOutput, h]
  · rcases ho with h2 | h2
    · exact absurd h2 h
    · simp [writeOutput, h, h2]

/-- C5: for every world, command line and settings the command line parses to, when
`cipherFactory` raises `InvalidKey` for the cipher type and key of the settings, the run of
`main` never calls `applyCipher` and never writes to the output file; when neither help nor
the version is requested (so that `main` goes on to the cipher) it returns 1 and writes
nothing to standard output; and when moreover the input can be read, so that the factory is
called, the run is the exception reaching its handler and the diagnostic on standard error,
nothing else. -/
theorem invalid_key_aborts (w : World) (cmdLineArgs : List Str) (settings : ProgramSettings)
    (what : Str)
    (hp : w.processCommandLine cmdLineArgs ⟨false, false, [], [], [], .Encrypt, .Caesar⟩
      = .ok settings)
    (hf : w.cipherFactory settings.cipherType settings.cipherKey = .error ⟨what⟩) :
    (main w cmdLineArgs).trace.any Event.isTransform = false ∧
    (settings.helpRequested = false → settings.versionRequested = false →
      (main w cmdLineArgs).outcome = .returned 1 ∧
      stdoutOf (main w cmdLineArgs).trace = [] ∧
      (main w cmdLineArgs).trace.any Event.isOutput = false) ∧
    (settings.helpRequested = false → settings.versionRequested = false →
      (settings.inputFile = [] ∨ ∃ content, w.ifstream settings.inputFile = some content) →
      (main w cmdLineArgs).trace = [.raised .InvalidKey what,
        .cerr ("[error] Missing argument: ".toList ++ what ++ "\n".toList)]) := by
  have reached : settings.helpRequested = false → settings.versionRequested = false →
      (settings.inputFile = [] ∨ ∃ content, w.ifstream settings.inputFile = some content) →
      main w cmdLineArgs = ⟨[.raised .InvalidKey what,
        .cerr ("[error] Missing argument: ".toList ++ what ++ "\n".toList)], .returned 1⟩ := by
    intro hh hv hin
    obtain ⟨inputText, hm⟩ := main_reaches_factory w cmdLineArgs settings hp hh hv hin
    rw [hm, constructCipher_error w settings inputText ⟨what⟩ hf]
  have unread : settings.helpRequested = false → settings.versionRequested = false →
      ¬ (settings.inputFile = [] ∨ ∃ content, w.ifstream settings.inputFile = some content) →
      main w cmdLineArgs = ⟨[.ifstreamBad settings.inputFile,
        .cerr ("[error] failed to create istream on file '".toList ++ settings.inputFile
          ++ "'\n".toList)], .returned 1⟩ := by
    intro hh hv hin
    have hi : settings.inputFile ≠ [] := fun h => hin (Or.inl h)
    have hs : w.ifstream settings.inputFile = none := by
      cases hc : w.ifstream settings.inputFile with
      | none => rfl
      | some content => exact absurd (Or.inr ⟨content, hc⟩) hin
    exact main_bad_ifstream w cmdLineArgs settings hp hh hv hi hs
  refine ⟨?_, ?_, fun hh hv hin => by rw [reached hh hv hin]⟩
  · by_cases hh : settings.helpRequested = true
    · rw [main_help w cmdLineArgs settings hp hh]; simp [Event.isTransform]
    · have hh2 : settings.helpRequested = false := by simpa using hh
      by_cases hv : settings.versionRequested = true
      · rw [main_version w cmdLineArgs settings hp hh2 hv]; simp [Event.isTransform]
      · have hv2 : settings.versionRequested = false := by simpa using hv
        by_cases hin : settings.inputFile = [] ∨
            ∃ content, w.ifstream settings.inputFile = some content
        · rw [reached hh2 hv2 hin]; simp [Event.isTransform]
        · rw [unread hh2 hv2 hin]; simp [Event.isTransform]
  · intro hh hv
    by_cases hin : settings.inputFile = [] ∨
        ∃ content, w.ifstream settings.inputFile = some content
    · rw [reached hh hv hin]; simp [Event.isOutput, stdoutOf]
    · rw [unread hh hv hin]; simp [Event.isOutput, stdoutOf]

theorem invalid_key_aborts_witness :
    (main (sampleWorld (.ok caesar3Settings) (.error ⟨"abc".toList⟩) "HELLO".toList
        (fun _ => 0)) []).trace.any Event.isTransform = false ∧
    (main (sampleWorld (.ok caesar3Settings) (.error ⟨"abc".toList⟩) "HELLO".toList
        (fun _ => 0)) []).outcome = .returned 1 ∧
    stdoutOf (main (sampleWorld (.ok caesar3Settings) (.error ⟨"abc".toList⟩)
        "HELLO".toList (fun _ => 0)) []).trace = [] ∧
    (main (sampleWorld (.ok caesar3Settings) (.error ⟨"abc".toList⟩) "HELLO".toList
        (fun _ => 0)) []).trace = [.raised .InvalidKey "abc".toList,
      .cerr ("[error] Missing argument: ".toList ++ "abc".toList ++ "\n".toList)] :=
  have h := invalid_key_aborts
    (sampleWorld (.ok caesar3Settings) (.error ⟨"abc".toList⟩) "HELLO".toList (fun _ => 0))
    [] caesar3Settings "abc".toList rfl rfl
  ⟨h.1, (h.2.1 rfl rfl).1, (h.2.1 rfl rfl).2.1, h.2.2 rfl rfl (Or.inl rfl)⟩

/-- C6: the exit code of `main`, for every world and command line. It returns 1 when
`processCommandLine` raises `MissingArgument` or `UnknownArgument`. When the command line
parses: it returns 0 when help or the version is requested; otherwise it returns 1 when the
input file is named and its stream is not good; otherwise it returns 1 when `cipherFactory`
raises `InvalidKey` or gives no cipher; otherwise it returns 1 when the output file is named
and its stream is not good, and 0 when no output file is named or its stream is good. -/
theorem main_exit_code (w : World) (cmdLineArgs : List Str) :
    (∀ what,
      w.processCommandLine cmdLineArgs ⟨false, false, [], [], [], .Encrypt, .Caesar⟩
        = .error (.MissingArgument what) →
      (main w cmdLineArgs).outcome = .returned 1) ∧
    (∀ what,
      w.processCommandLine cmdLineArgs ⟨false, false, [], [], [], .Encrypt, .Caesar⟩
        = .error (.UnknownArgument what) →
      (main w cmdLineArgs).outcome = .returned 1) ∧
    (∀ settings : ProgramSettings,
      w.processCommandLine cmdLineArgs ⟨false, false, [], [], [], .Encrypt, .Caesar⟩
        = .ok settings →
      (settings.helpRequested = true ∨ settings.versionRequested = true →
        (main w cmdLineArgs).outcome = .returned 0) ∧
      (settings.helpRequested = false → settings.versionRequested = false →
        (settings.inputFile ≠ [] → w.ifstream settings.inputFile = none →
          (main w cmdLineArgs).outcome = .returned 1) ∧
        (settings.inputFile = [] ∨ (∃ content, w.ifstream settings.inputFile = some content) →
          (∀ e, w.cipherFactory settings.cipherType settings.cipherKey = .error e →
            (main w cmdLineArgs).outcome = .returned 1) ∧
          (w.cipherFactory settings.cipherType settings.cipherKey = .ok none →
            (main w cmdLineArgs).outcome = .returned 1) ∧
          (∀ cipher, w.cipherFactory settings.cipherType settings.cipherKey
              = .ok (some cipher) →
            (settings.outputFile ≠ [] → w.ofstreamGood settings.outputFile = false →
              (main w cmdLineArgs).outcome = .returned 1) ∧
            (settings.outputFile = [] ∨ w.ofstreamGood settings.outputFile = true →
              (main w cmdLineArgs).outcome = .returned 0))))) := by
  refine ⟨fun what hp => by rw [main_parse_error_missing w cmdLineArgs what hp],
    fun what hp => by rw [main_parse_error_unknown w cmdLineArgs what hp],
    fun settings hp => ⟨?_, fun hh hv => ⟨?_, fun hin => ?_⟩⟩⟩
  · intro h
    by_cases hh : settings.helpRequested = true
    · rw [main_help w cmdLineArgs settings hp hh]
    · have hh2 : settings.helpRequested = false := by simpa using hh
      have hv : settings.versionRequested = true := h.resolve_left hh
      rw [main_version w cmdLineArgs settings hp hh2 hv]
  · intro hi hs
    rw [main_bad_ifstream w cmdLineArgs settings hp hh hv hi hs]
  · obtain ⟨inputText, hm⟩ := main_reaches_factory w cmdLineArgs settings hp hh hv hin
    rw [hm]
    refine ⟨fun e hf => by rw [constructCipher_error w settings inputText e hf],
      fun hf => by rw [constructCipher_null w settings inputText hf],
      fun cipher hf => ?_⟩
    rw [constructCipher_some w settings inputText cipher hf]
    obtain ⟨tr, outputText, hr⟩ := runCipher_eq w settings cipher inputText
    rw [hr]
    exact ⟨fun ho hg => writeOutput_bad_ofstream w settings outputText ho hg,
      fun ho => writeOutput_written w settings outputText ho⟩

/-! The diagnostics and the wait loop -/

/-- C7 (the code departs from the claim): for every message `m`, the run in which
`processCommandLine` raises `MissingArgument(m)` and the run in which `cipherFactory` raises
`InvalidKey(m)` write the same diagnostic, "[error] Missing argument: " followed by `m`, to
standard error: the handler of line 114 repeats the text of the handler of line 30. -/
theorem invalid_key_reported_as_missing_argument (m : Str) :
    stderrOf (main (sampleWorld (.error (.MissingArgument m)) (.ok none) [] (fun _ => 0))
        []).trace = "[error] Missing argument: ".toList ++ m ++ "\n".toList ∧
    stderrOf (main (sampleWorld (.ok caesar3Settings) (.error ⟨m⟩) [] (fun _ => 0))
        []).trace = "[error] Missing argument: ".toList ++ m ++ "\n".toList := by
  constructor <;> simp [main, constructCipher, sampleWorld, caesar3Settings, stderrOf]

/-- C8 (the code departs from the claim): a Caesar encryption of "HELLO" with key 3 from
standard input to standard output succeeds with the processed text "KHOOR"; when
`futures[0]` is not ready at the first check, standard output receives "Steady..." and a
line end before the processed text, and when every future is ready at once it receives the
processed text and one line end only. -/
theorem steady_on_stdout :
    (main (sampleWorld (.ok caesar3Settings) (.ok (some (caesarCipher 3))) "HELLO".toList
        (fun i => if i = 0 then 1 else 0)) []).outcome = .returned 0 ∧
    stdoutOf (main (sampleWorld (.ok caesar3Settings) (.ok (some (caesarCipher 3)))
        "HELLO".toList (fun i => if i = 0 then 1 else 0)) []).trace
      = "Steady...\nKHOOR\n".toList ∧
    stdoutOf (main (sampleWorld (.ok caesar3Settings) (.ok (some (caesarCipher 3)))
        "HELLO".toList (fun _ => 0)) []).trace = "KHOOR\n".toList := by
  decide

theorem main_exit_code_witness :
    (main (sampleWorld (.error (.UnknownArgument "-x".toList)) (.ok none) [] (fun _ => 0))
      []).outcome = .returned 1 ∧
    (main (sampleWorld (.ok caesar3Settings) (.error ⟨"abc".toList⟩) "HELLO".toList
      (fun _ => 0)) []).outcome = .returned 1 ∧
    (main (sampleWorld (.ok caesar3Settings) (.ok none) "HELLO".toList (fun _ => 0))
      []).outcome = .returned 1 ∧
    (main (sampleWorld (.ok caesar3Settings) (.ok (some (caesarCipher 3))) "HELLO".toList
      (fun _ => 1)) []).outcome = .returned 0 :=
  ⟨(main_exit_code _ []).2.1 "-x".toList rfl,
    ((((main_exit_code _ []).2.2 caesar3Settings rfl).2 rfl rfl).2 (Or.inl rfl)).1 _ rfl,
    ((((main_exit_code _ []).2.2 caesar3Settings rfl).2 rfl rfl).2 (Or.inl rfl)).2.1 rfl,
    (((((main_exit_code _ []).2.2 caesar3Settings rfl).2 rfl rfl).2 (Or.inl rfl)).2.2
      (caesarCipher 3) rfl).2 (Or.inl rfl)⟩

theorem waitEvents_append (a b : List Event) :
    waitEvents (a ++ b) = waitEvents a ++ waitEvents b := by
  simp [waitEvents]

theorem waitEvents_waitLoop (i : Nat) :
    ∀ n, waitEvents (waitLoop i n ++ [Event.get i]) =
      List.replicate n (Event.waitFor i false) ++ [.waitFor i true, .get i] := by
  intro n
  induction n with
  | zero => simp [waitEvents, waitLoop, Event.isWait]
  | succ n ih =>
    have hstep : waitEvents (waitLoop i (n + 1) ++ [Event.get i]) =
        Event.waitFor i false :: waitEvents (waitLoop i n ++ [Event.get i]) := by
      simp [waitEvents, waitLoop, Event.isWait]
    rw [hstep, ih, List.replicate_succ, List.cons_append]

theorem waitEvents_waits (timeouts : Nat → Nat) :
    ∀ N, waitEvents ((List.range N).map
        (fun j => waitLoop j (timeouts j) ++ [Event.get j])).flatten =
      ((List.range N).map (fun i =>
        List.replicate (timeouts i) (Event.waitFor i false)
          ++ [.waitFor i true, .get i])).flatten := by
  intro N
  induction N with
  | zero => simp [waitEvents]
  | succ N ih =>
    rw [List.range_succ, List.map_append, List.flatten_append, waitEvents_append, ih,
      List.map_append, List.flatten_append]
    simp only [List.map_cons, List.map_nil, List.flatten_cons, List.flatten_nil,
      List.append_nil]
    rw [waitEvents_waitLoop]

theorem waitEvents_caesarBranch (cipher : Cipher) (mode : CipherMode)
    (timeouts : Nat → Nat) (T : Str) (N : Nat) :
    waitEvents (caesarBranch cipher mode timeouts T N).1 =
      ((List.range N).map (fun i =>
        List.replicate (timeouts i) (Event.waitFor i false)
          ++ [.waitFor i true, .get i])).flatten := by
  rw [caesarBranch_eq, waitEvents_append, waitEvents_waits]
  have h0 : waitEvents
      ((List.range N).map (fun j => Event.applyCipher (segment T N j) mode)) = [] := by
    simp [waitEvents, List.filter_eq_nil_iff, Event.isWait]
  rw [h0, List.nil_append]

theorem readinessChecks_eq_waitEvents (i : Nat) (tr : List Event) :
    readinessChecks i tr = readinessChecks i (waitEvents tr) := by
  induction tr with
  | nil => rfl
  | cons e tr ih =>
    simp only [readinessChecks, waitEvents] at ih ⊢
    cases e <;> simp [List.countP_cons, List.filter_cons, Event.isWait, ih]

theorem readinessChecks_append (i : Nat) (a b : List Event) :
    readinessChecks i (a ++ b) = readinessChecks i a + readinessChecks i b := by
  simp [readinessChecks, List.countP_append]

theorem readinessChecks_poll (i j n : Nat) :
    readinessChecks i (List.replicate n (Event.waitFor j false) ++ [.waitFor j true, .get j]) =
      if j = i then n + 1 else 0 := by
  by_cases h : j = i
  · simp [readinessChecks, List.countP_append, List.countP_replicate, List.countP_cons, h]
  · simp [readinessChecks, List.countP_append, List.countP_replicate, List.countP_cons, h]

theorem readinessChecks_polls (timeouts : Nat → Nat) (i : Nat) :
    ∀ N, readinessChecks i ((List.range N).map (fun j =>
        List.replicate (timeouts j) (Event.waitFor j false)
          ++ [.waitFor j true, .get j])).flatten =
      if i < N then timeouts i + 1 else 0 := by
  intro N
  induction N with
  | zero => simp [readinessChecks]
  | succ N ih =>
    rw [List.range_succ, List.map_append, List.flatten_append, readinessChecks_append, ih]
    simp only [List.map_cons, List.map_nil, List.flatten_cons, List.flatten_nil,
      List.append_nil, readinessChecks_poll]
    by_cases h1 : i < N
    · have h2 : ¬ N = i := by omega
      have h3 : i < N + 1 := by omega
      simp [h1, h2, h3]
    · by_cases h2 : N = i
      · subst h2; simp
      · have h3 : ¬ i < N + 1 := by omega
        simp [h1, h2, h3]

theorem readinessChecks_caesarBranch (cipher : Cipher) (mode : CipherMode)
    (timeouts : Nat → Nat) (T : Str) (N i : Nat) :
    readinessChecks i (caesarBranch cipher mode timeouts T N).1 =
      if i < N then timeouts i + 1 else 0 := by
  rw [readinessChecks_eq_waitEvents, waitEvents_caesarBranch, readinessChecks_polls]

/-- C9 (counterexample): in the Caesar run on "HELLO" in which `futures[0]` reports twice
that it is not ready, `main` checks the readiness of `futures[0]` three times, so its wait is
not a wait that blocks until completion is signaled. -/
theorem wait_not_blocking :
    ¬ blockingWait (main (sampleWorld (.ok caesar3Settings) (.ok (some (caesarCipher 3)))
      "HELLO".toList (fun i => if i = 0 then 2 else 0)) []).trace :=
  fun h => absurd (h 0) (by decide)

/-- C9 (amended): for every cipher, mode, text, number of threads `N` and timing of the
workers, the wait of the Caesar branch of `main` is a polling loop. Its readiness checks and
`get()` calls are, in this order and nothing else: for `i = 0, 1, .., N-1` in index order,
one check of `futures[i]` for each time it reports that it is not ready, then the one check
that reports ready, then `futures[i].get()`. So `futures[i]` is checked once more than the
number of times it reports not ready; no future is checked twice exactly when every worker
is ready at its first check; and for `N ≥ 1` the wait ends with the check at which the last
future, `futures[N-1]`, reports ready, every future having reported ready by then. -/
theorem wait_is_polling (cipher : Cipher) (mode : CipherMode) (timeouts : Nat → Nat)
    (T : Str) (N : Nat) :
    waitEvents (caesarBranch cipher mode timeouts T N).1 =
      ((List.range N).map (fun i =>
        List.replicate (timeouts i) (Event.waitFor i false)
          ++ [.waitFor i true, .get i])).flatten ∧
    (∀ i, i < N →
      readinessChecks i (caesarBranch cipher mode timeouts T N).1 = timeouts i + 1) ∧
    (blockingWait (caesarBranch cipher mode timeouts T N).1 ↔
      ∀ i, i < N → timeouts i = 0) ∧
    (1 ≤ N → ∃ before,
      waitEvents (caesarBranch cipher mode timeouts T N).1 =
        before ++ [.waitFor (N - 1) true, .get (N - 1)] ∧
      ∀ i, i < N → Event.waitFor i true ∈ before ++ [.waitFor (N - 1) true]) := by
  refine ⟨waitEvents_caesarBranch cipher mode timeouts T N, fun i hi => ?_, ⟨?_, ?_⟩, ?_⟩
  · rw [readinessChecks_caesarBranch, if_pos hi]
  · intro h i hi
    have := h i
    rw [readinessChecks_caesarBranch, if_pos hi] at this
    omega
  · intro h i
    rw [readinessChecks_caesarBranch]
    by_cases hi : i < N
    · rw [if_pos hi, h i hi]
    · rw [if_neg hi]; omega
  · intro hN
    obtain ⟨m, rfl⟩ : ∃ m, N = m + 1 := ⟨N - 1, by omega⟩
    refine ⟨((List.range m).map (fun i =>
        List.replicate (timeouts i) (Event.waitFor i false)
          ++ [.waitFor i true, .get i])).flatten
        ++ List.replicate (timeouts m) (Event.waitFor m false), ?_, ?_⟩
    · rw [waitEvents_caesarBranch]
      simp [List.range_succ]
    · intro i hi
      by_cases him : i = m
      · subst him; simp
      · have hlt : i < m := by omega
        simp only [Nat.add_sub_cancel, List.mem_append, List.mem_flatten, List.mem_map,
          List.mem_range]
        exact Or.inl (Or.inl ⟨_, ⟨i, hlt, rfl⟩, by simp⟩)

end MPAGSCipher
